import Mathlib

/-!
Verification of the reduced-order-model cross-validation component described
by the repository specification.  The repository itself is notebook glue
code: the cross-validation evaluator (`kfold_cv_error`), the leave-one-out
evaluator (`loo_error`), the `Database` container and the `POD` reduction
live in an external library and are only invoked from the notebooks, so the
definitions below are modelled from the specification text.  The PINN
problem of the second notebook (`SimpleODE`) is embedded directly from its
source cell.
-/

namespace RomCv

/-- Modelled from the spec: the fold-size policy of the evaluator, which is
not under `src/` (only its call sites are).  "partition sample indices into
k folds ... Folds of uneven size when N is not divisible by k — policy:
distribute remainder across the first folds, one extra sample each."  Fold
`i` receives `N / k` samples, plus one extra when `i < N % k`. -/
def foldSizes (N k : ℕ) : List ℕ :=
  (List.range k).map (fun i => N / k + if i < N % k then 1 else 0)

/-- Split a list into consecutive chunks of the given sizes. -/
def chunkBySizes {α : Type} : List ℕ → List α → List (List α)
  | [], _ => []
  | s :: ss, xs => xs.take s :: chunkBySizes ss (xs.drop s)

/-- Modelled from the spec: the fold assignment of the evaluator, which is
not under `src/`.  "partition sample indices into k folds (contiguous or
shuffled ...)": the contiguous policy chunks the indices `0, ..., N-1` in
order by the fold sizes. -/
def kfoldIndices (N k : ℕ) : List (List ℕ) :=
  chunkBySizes (foldSizes N k) (List.range N)

theorem foldSizes_length (N k : ℕ) : (foldSizes N k).length = k := by
  simp [foldSizes]

theorem sum_map_const_add (l : List ℕ) (c : ℕ) (f : ℕ → ℕ) :
    (l.map (fun i => c + f i)).sum = l.length * c + (l.map f).sum := by
  induction l with
  | nil => simp
  | cons a t ih => simp [ih, Nat.succ_mul]; omega

theorem sum_indicator_range (k m : ℕ) :
    ((List.range k).map (fun i => if i < m then 1 else 0)).sum = min m k := by
  induction k with
  | zero => simp
  | succ n ih =>
    rw [List.range_succ, List.map_append, List.sum_append]
    simp only [List.map_cons, List.map_nil, List.sum_cons, List.sum_nil, ih]
    split <;> omega

theorem foldSizes_sum (N k : ℕ) (hk : 0 < k) : (foldSizes N k).sum = N := by
  have hlt : N % k < k := Nat.mod_lt _ hk
  unfold foldSizes
  rw [sum_map_const_add, sum_indicator_range, List.length_range]
  have := Nat.div_add_mod N k
  omega

theorem chunkBySizes_flatten {α : Type} (ss : List ℕ) (xs : List α) :
    (chunkBySizes ss xs).flatten = xs.take ss.sum := by
  induction ss generalizing xs with
  | nil => simp [chunkBySizes]
  | cons s t ih => simp [chunkBySizes, ih, List.take_add]

theorem kfoldIndices_flatten (N k : ℕ) (hk : 0 < k) :
    (kfoldIndices N k).flatten = List.range N := by
  unfold kfoldIndices
  rw [chunkBySizes_flatten, foldSizes_sum N k hk]
  exact List.take_of_length_le (by simp)

theorem countP_mem_flatten_nodup {L : List (List ℕ)} (h : L.flatten.Nodup) {i : ℕ}
    (hm : i ∈ L.flatten) : L.countP (fun f => decide (i ∈ f)) = 1 := by
  induction L with
  | nil => simp at hm
  | cons f fs ih =>
    rw [List.flatten_cons] at h hm
    have hdisj := (List.nodup_append.mp h).2.2
    rcases List.mem_append.mp hm with hf | hfs
    · have h0 : fs.countP (fun g => decide (i ∈ g)) = 0 := by
        rw [List.countP_eq_zero]
        intro g hg hig
        exact hdisj hf (List.mem_flatten.mpr ⟨g, hg, of_decide_eq_true hig⟩)
      rw [List.countP_cons]
      simp [h0, hf]
    · have hnf : i ∉ f := fun hif => hdisj hif hfs
      rw [List.countP_cons]
      have := ih (List.nodup_append.mp h).2.1 hfs
      simp [this, hnf]

/-- C1: for every `N` and `k` with `1 < k ≤ N`, the `k` folds of the
cross-validation evaluator partition the `N` sample indices exactly: their
concatenation is all indices `0, ..., N-1` in order (hence no omission and
no duplication), the folds are pairwise disjoint, and every index below `N`
lies in exactly one fold. -/
theorem kfold_partition (N k : ℕ) (hk : 1 < k) (hkN : k ≤ N) :
    (kfoldIndices N k).flatten = List.range N ∧
    (kfoldIndices N k).Pairwise List.Disjoint ∧
    ∀ i < N, (kfoldIndices N k).countP (fun f => decide (i ∈ f)) = 1 := by
  have hflat := kfoldIndices_flatten N k (Nat.lt_of_lt_of_le Nat.zero_lt_one hk.le)
  have hnodup : (kfoldIndices N k).flatten.Nodup := by
    rw [hflat]; exact List.nodup_range N
  refine ⟨hflat, (List.nodup_flatten.mp hnodup).2, fun i hi => ?_⟩
  exact countP_mem_flatten_nodup hnodup (by rw [hflat]; exact List.mem_range.mpr hi)

theorem kfold_partition_witness :
    (1 < 2 ∧ 2 ≤ 5) ∧ (kfoldIndices 5 2).flatten = List.range 5 :=
  ⟨⟨by decide, by decide⟩, (kfold_partition 5 2 (by decide) (by decide)).1⟩

theorem foldSizes_getD (N k i : ℕ) (h : i < k) :
    (foldSizes N k).getD i 0 = N / k + if i < N % k then 1 else 0 := by
  unfold foldSizes
  rw [List.getD_eq_getElem _ _ (by simpa using h)]
  simp [h]

/-- C2: the fold sizes differ by at most 1; the first `N % k` folds receive
`N / k + 1` samples and the remaining folds `N / k` (the remainder is spread
one extra sample each over the first folds); in particular `N = 10, k = 5`
gives sizes `[2, 2, 2, 2, 2]` and `N = 11, k = 5` gives `[3, 2, 2, 2, 2]`. -/
theorem foldSizes_balanced (N k : ℕ) (hk : 1 < k) (hkN : k ≤ N) :
    (∀ a ∈ foldSizes N k, ∀ b ∈ foldSizes N k, a ≤ b + 1) ∧
    (∀ i, i < N % k → (foldSizes N k).getD i 0 = N / k + 1) ∧
    (∀ i, N % k ≤ i → i < k → (foldSizes N k).getD i 0 = N / k) ∧
    foldSizes 10 5 = [2, 2, 2, 2, 2] ∧ foldSizes 11 5 = [3, 2, 2, 2, 2] := by
  refine ⟨?_, ?_, ?_, by decide, by decide⟩
  · intro a ha b hb
    simp only [foldSizes, List.mem_map, List.mem_range] at ha hb
    obtain ⟨i, _, hia⟩ := ha
    obtain ⟨j, _, hjb⟩ := hb
    subst hia hjb
    split <;> split <;> omega
  · intro i hi
    rw [foldSizes_getD N k i (lt_of_lt_of_le hi (Nat.mod_lt _ (by omega)).le)]
    simp [hi]
  · intro i hi hik
    rw [foldSizes_getD N k i hik]
    simp [Nat.not_lt.mpr hi]

theorem foldSizes_balanced_witness :
    (1 < 5 ∧ 5 ≤ 11) ∧ foldSizes 11 5 = [3, 2, 2, 2, 2] :=
  ⟨⟨by decide, by decide⟩, (foldSizes_balanced 11 5 (by decide) (by decide)).2.2.2.2⟩

/-- Modelled from the spec: the `Database` container of the external
library, which is not under `src/` (only its constructor call site is).
It "holds paired (parameter, snapshot) samples": a parameter matrix and a
snapshot matrix stored by rows.  Scalars are modelled as rationals so the
model stays in exact arithmetic. -/
structure Database where
  params : List (List ℚ)
  snapshots : List (List ℚ)

/-- The reported message for mismatched sample counts. -/
def dataValidationMsg : String :=
  "data-validation error: parameter and snapshot sample counts differ"

/-- Modelled from the spec: the validating constructor of `Database`.
"Mismatched parameter/snapshot sample counts: fails with a data-validation
error at database construction." -/
def Database.create (p s : List (List ℚ)) : Except String Database :=
  if p.length = s.length then Except.ok ⟨p, s⟩ else Except.error dataValidationMsg

/-- Modelled from the spec: the fitted reduction-plus-approximation
pipeline, abstracted to its observable behaviour: after training on a
database it maps a parameter vector to a predicted full-order snapshot. -/
structure Pipeline where
  fitPredict : Database → List ℚ → List ℚ

/-- Modelled from the spec: the per-sample reconstruction error, "the norm
of (reconstructed snapshot − true snapshot)".  The norm is taken to be the
L1 norm so that the model stays in exact arithmetic; the properties proved
about it are norm-independent. -/
def sampleError (pred actual : List ℚ) : ℚ :=
  (List.zipWith (fun a b => |a - b|) pred actual).sum

/-- Modelled from the spec: the training database for fold `i`, "the union
of all other folds". -/
def trainDb (db : Database) (folds : List (List ℕ)) (i : ℕ) : Database :=
  let keep := (folds.eraseIdx i).flatten
  ⟨keep.map (fun j => db.params.getD j []), keep.map (fun j => db.snapshots.getD j [])⟩

/-- Modelled from the spec: the average, over fold `i`'s held-out samples,
of the per-sample reconstruction error of the pipeline fitted on the union
of the other folds. -/
def foldError (P : Pipeline) (db : Database) (folds : List (List ℕ)) (i : ℕ) : ℚ :=
  let errs := (folds.getD i []).map (fun j =>
    sampleError (P.fitPredict (trainDb db folds i) (db.params.getD j []))
      (db.snapshots.getD j []))
  errs.sum / errs.length

/-- Modelled from the spec: the cross-validation evaluator
`kfold_cv_error`, which is not under `src/` (only its call sites are).
"For each fold i: train the reduction+approximation pipeline on the union
of all other folds, predict snapshots for fold i's parameters, compute
per-sample reconstruction error, and average within the fold.  Return the
sequence of k fold-average errors." -/
def kfold_cv_error (P : Pipeline) (db : Database) (k : ℕ) : List ℚ :=
  (List.range k).map (foldError P db (kfoldIndices db.params.length k))

/-- The mean of a list of rationals, as taken by the notebook caller. -/
def listMean (l : List ℚ) : ℚ := l.sum / l.length

/-- The database with sample `i` removed. -/
def dropSample (db : Database) (i : ℕ) : Database :=
  ⟨db.params.eraseIdx i, db.snapshots.eraseIdx i⟩

/-- Modelled from the spec: the leave-one-out evaluator `loo_error`, which
is not under `src/` (only a commented call site is).  "Combine all the
snapshots except one ... predict the removed snapshot ... the error vector
is obtained by repeating this procedure for each snapshot." -/
def loo_error (P : Pipeline) (db : Database) : List ℚ :=
  (List.range db.params.length).map (fun i =>
    sampleError (P.fitPredict (dropSample db i) (db.params.getD i []))
      (db.snapshots.getD i []))

/-- C3: for `1 < k ≤ N`, `kfold_cv_error` returns exactly `k` values, the
`i`-th being the average over fold `i`'s held-out samples of the per-sample
reconstruction error of the pipeline fitted on the union of the other
folds; the mean the caller takes on top is the sum of the `k` fold averages
divided by `k`. -/
theorem kfold_cv_error_spec (P : Pipeline) (db : Database) (k : ℕ) (hk : 1 < k)
    (hkN : k ≤ db.params.length) :
    (kfold_cv_error P db k).length = k ∧
    (∀ i, i < k →
      (kfold_cv_error P db k).getD i 0 =
        (let folds := kfoldIndices db.params.length k
         let errs := (folds.getD i []).map (fun j =>
           sampleError (P.fitPredict (trainDb db folds i) (db.params.getD j []))
             (db.snapshots.getD j []))
         errs.sum / errs.length)) ∧
    listMean (kfold_cv_error P db k) = (kfold_cv_error P db k).sum / k := by
  have hlen : (kfold_cv_error P db k).length = k := by
    simp [kfold_cv_error]
  refine ⟨hlen, fun i hi => ?_, by rw [listMean, hlen]⟩
  unfold kfold_cv_error
  rw [List.getD_eq_getElem _ _ (by simpa using hi)]
  simp only [List.getElem_map, List.getElem_range]
  rfl

theorem zipWith_abs_sum_nonneg (a b : List ℚ) :
    0 ≤ (List.zipWith (fun x y => |x - y|) a b).sum := by
  induction a generalizing b with
  | nil => simp
  | cons x xs ih =>
    cases b with
    | nil => simp
    | cons y ys =>
      simp only [List.zipWith_cons_cons, List.sum_cons]
      exact add_nonneg (abs_nonneg _) (ih ys)

theorem sampleError_nonneg (a b : List ℚ) : 0 ≤ sampleError a b :=
  zipWith_abs_sum_nonneg a b

theorem sampleError_self (s : List ℚ) : sampleError s s = 0 := by
  unfold sampleError
  induction s with
  | nil => simp
  | cons x xs ih => simp [ih]

theorem foldError_nonneg (P : Pipeline) (db : Database) (folds : List (List ℕ)) (i : ℕ) :
    0 ≤ foldError P db folds i := by
  unfold foldError
  refine div_nonneg (List.sum_nonneg ?_) (by positivity)
  intro x hx
  obtain ⟨j, _, hj⟩ := List.mem_map.mp hx
  exact hj ▸ sampleError_nonneg _ _

/-- C4: every value returned by the cross-validation evaluator is
non-negative, and the per-sample error is exactly zero whenever the fitted
pipeline reconstructs the held-out snapshot perfectly. -/
theorem kfold_cv_error_nonneg (P : Pipeline) (db : Database) (k : ℕ) :
    (∀ e ∈ kfold_cv_error P db k, 0 ≤ e) ∧
    ∀ tr p s, P.fitPredict tr p = s → sampleError (P.fitPredict tr p) s = 0 := by
  constructor
  · intro e he
    obtain ⟨i, _, hi⟩ := List.mem_map.mp he
    exact hi ▸ foldError_nonneg P db _ i
  · intro tr p s hps
    rw [hps]
    exact sampleError_self s

/-- A trivial pipeline used to instantiate the evaluator concretely. -/
def constPipe : Pipeline := ⟨fun _ _ => []⟩

/-- A concrete three-sample database used to instantiate theorems. -/
def dbW : Database := ⟨[[0], [1], [2]], [[5], [6], [7]]⟩

theorem kfold_cv_error_spec_witness :
    (1 < 2 ∧ 2 ≤ dbW.params.length) ∧ (kfold_cv_error constPipe dbW 2).length = 2 :=
  ⟨⟨by decide, by decide⟩,
   (kfold_cv_error_spec constPipe dbW 2 (by decide) (by decide)).1⟩

theorem kfold_constPipe_eval : kfold_cv_error constPipe dbW 2 = [0, 0] := by
  simp [kfold_cv_error, foldError, sampleError, constPipe, dbW, List.range_succ]

theorem kfold_cv_error_nonneg_witness :
    (0 : ℚ) ∈ kfold_cv_error constPipe dbW 2 ∧
    (0 : ℚ) ≤ 0 ∧ sampleError (constPipe.fitPredict dbW []) [] = 0 :=
  ⟨by rw [kfold_constPipe_eval]; exact List.mem_cons_self 0 _,
   (kfold_cv_error_nonneg constPipe dbW 2).1 0
     (by rw [kfold_constPipe_eval]; exact List.mem_cons_self 0 _),
   (kfold_cv_error_nonneg constPipe dbW 2).2 dbW [] [] rfl⟩

theorem range_map_getD (l : List (List ℚ)) :
    (List.range l.length).map (fun j => l.getD j ([] : List ℚ)) = l := by
  induction l with
  | nil => simp
  | cons x xs ih =>
    rw [List.length_cons, List.range_succ_eq_map, List.map_cons, List.map_map]
    simp only [Function.comp_def, List.getD_cons_zero, List.getD_cons_succ]
    rw [ih]

theorem map_eraseIdx {α β : Type} (f : α → β) (l : List α) (i : ℕ) :
    (l.map f).eraseIdx i = (l.eraseIdx i).map f := by
  induction l generalizing i with
  | nil => simp
  | cons x xs ih =>
    cases i with
    | zero => simp
    | succ j => simp [ih]

theorem range_eraseIdx_map_getD (l : List (List ℚ)) (i : ℕ) :
    ((List.range l.length).eraseIdx i).map (fun j => l.getD j ([] : List ℚ)) =
      l.eraseIdx i := by
  induction l generalizing i with
  | nil => simp
  | cons x xs ih =>
    rw [List.length_cons, List.range_succ_eq_map]
    cases i with
    | zero =>
      simp only [List.eraseIdx_cons_zero, List.map_map]
      simp only [Function.comp_def, List.getD_cons_succ]
      exact range_map_getD xs
    | succ j =>
      simp only [List.eraseIdx_cons_succ, map_eraseIdx, List.map_cons, List.map_map]
      simp only [Function.comp_def, List.getD_cons_zero, List.getD_cons_succ]
      rw [ih]

theorem foldSizes_self (N : ℕ) (hN : 0 < N) : foldSizes N N = List.replicate N 1 := by
  unfold foldSizes
  simp [Nat.div_self hN, Nat.mod_self, List.map_const']

theorem chunk_replicate {α : Type} (xs : List α) :
    chunkBySizes (List.replicate xs.length 1) xs = xs.map (fun x => [x]) := by
  induction xs with
  | nil => simp [chunkBySizes]
  | cons x t ih => simp [chunkBySizes, List.replicate_succ, ih]

theorem kfoldIndices_self (N : ℕ) (hN : 0 < N) :
    kfoldIndices N N = (List.range N).map (fun i => [i]) := by
  unfold kfoldIndices
  rw [foldSizes_self N hN]
  calc chunkBySizes (List.replicate N 1) (List.range N)
      = chunkBySizes (List.replicate (List.range N).length 1) (List.range N) := by
        rw [List.length_range]
    _ = (List.range N).map (fun i => [i]) := chunk_replicate (List.range N)

theorem flatten_map_singleton {α : Type} (l : List α) :
    (l.map (fun x => [x])).flatten = l := by
  induction l with
  | nil => simp
  | cons x t ih => simp [ih]

/-- C5: with `k = N` the cross-validation evaluator degenerates to
leave-one-out: every fold holds out exactly one sample and the returned
error sequence equals the one produced by `loo_error`. -/
theorem kfold_eq_loo (P : Pipeline) (db : Database)
    (hlen : db.snapshots.length = db.params.length) (hN : 0 < db.params.length) :
    kfold_cv_error P db db.params.length = loo_error P db := by
  unfold kfold_cv_error loo_error
  rw [kfoldIndices_self db.params.length hN]
  apply List.map_congr_left
  intro i hi
  have hiN : i < db.params.length := List.mem_range.mp hi
  have hfold : ((List.range db.params.length).map (fun j => [j])).getD i [] = [i] := by
    rw [List.getD_eq_getElem _ _ (by simpa using hiN)]
    simp
  have htrain :
      trainDb db ((List.range db.params.length).map (fun j => [j])) i = dropSample db i := by
    unfold trainDb dropSample
    simp only [map_eraseIdx, flatten_map_singleton, Database.mk.injEq]
    refine ⟨range_eraseIdx_map_getD db.params i, ?_⟩
    rw [← hlen]
    exact range_eraseIdx_map_getD db.snapshots i
  unfold foldError
  rw [hfold, htrain]
  simp

theorem kfold_eq_loo_witness :
    (dbW.snapshots.length = dbW.params.length ∧ 0 < dbW.params.length) ∧
    kfold_cv_error constPipe dbW dbW.params.length = loo_error constPipe dbW :=
  ⟨⟨by decide, by decide⟩, kfold_eq_loo constPipe dbW (by decide) (by decide)⟩

/-- The reported message for a degenerate training subset. -/
def podConfigMsg : String :=
  "configuration error: fewer training samples than the requested POD rank"

/-- Modelled from the spec: the POD reduction method of the external
library, which is not under `src/` (only its constructor call with a target
rank is).  The specification fixes only its configuration data (the target
rank) and its failure mode; the modal decomposition itself belongs to the
external library and is out of scope, so a successful fit returns the
training snapshots as the otherwise-unspecified basis data. -/
structure POD where
  rank : ℕ

/-- Modelled from the spec: "fitting fails if the training subset is
degenerate (e.g., fewer samples than the reduction method's target rank) —
must surface as a reported error, not a silent incorrect result". -/
def POD.fit (m : POD) (snaps : List (List ℚ)) : Except String (List (List ℚ)) :=
  if snaps.length < m.rank then Except.error podConfigMsg else Except.ok snaps

/-- The snapshots of the training fold-set for fold `i` of a `k`-fold run. -/
def trainSnapshots (db : Database) (k i : ℕ) : List (List ℚ) :=
  (trainDb db (kfoldIndices db.params.length k) i).snapshots

/-- C6: in a cross-validation run whose training fold-set for fold `i` is
degenerate — fewer training samples than the POD target rank — fitting the
reduction reports a configuration error instead of succeeding silently. -/
theorem pod_fit_degenerate (m : POD) (db : Database) (k i : ℕ)
    (h : (trainSnapshots db k i).length < m.rank) :
    m.fit (trainSnapshots db k i) = Except.error podConfigMsg := by
  unfold POD.fit
  simp [h]

theorem pod_fit_degenerate_witness :
    (trainSnapshots dbW 2 0).length < 5 ∧
    POD.fit ⟨5⟩ (trainSnapshots dbW 2 0) = Except.error podConfigMsg :=
  ⟨by decide, pod_fit_degenerate ⟨5⟩ dbW 2 0 (by decide)⟩

/-- C7: constructing a database from a parameter matrix and a snapshot
matrix fails with the data-validation error exactly when their sample
counts differ, and succeeds with the stored pair when they agree. -/
theorem database_create_spec (p s : List (List ℚ)) :
    (p.length ≠ s.length → Database.create p s = Except.error dataValidationMsg) ∧
    (p.length = s.length → Database.create p s = Except.ok ⟨p, s⟩) := by
  unfold Database.create
  constructor
  · intro h; simp [h]
  · intro h; simp [h]

theorem database_create_spec_witness :
    ([[(1 : ℚ)]].length ≠ ([] : List (List ℚ)).length ∧
     Database.create [[1]] [] = Except.error dataValidationMsg) ∧
    ([[(1 : ℚ)]].length = [[(2 : ℚ)]].length ∧
     Database.create [[1]] [[2]] = Except.ok ⟨[[1]], [[2]]⟩) :=
  ⟨⟨by decide, (database_create_spec [[1]] []).1 (by decide)⟩,
   ⟨rfl, (database_create_spec [[1]] [[2]]).2 rfl⟩⟩

/-- Modelled from the spec: one iteration of the evaluator loop as explicit
state passing.  The iteration reads the database from the state, recomputes
the fold assignment, evaluates one fold, appends the fold error to the
accumulator and leaves the database untouched ("samples are loaded once and
immutable; fold assignments and reduced bases are recomputed per
cross-validation iteration and discarded after use"). -/
def kfoldStep (P : Pipeline) (k : ℕ) (st : List ℚ × Database) (i : ℕ) :
    List ℚ × Database :=
  (st.1 ++ [foldError P st.2 (kfoldIndices st.2.params.length k) i], st.2)

/-- Modelled from the spec: the evaluator loop threading its state through
the folds explicitly. -/
def kfold_cv_run (P : Pipeline) (db : Database) (k : ℕ) : List ℚ × Database :=
  (List.range k).foldl (kfoldStep P k) ([], db)

theorem kfold_foldl (P : Pipeline) (db : Database) (k : ℕ) (l : List ℕ) (acc : List ℚ) :
    l.foldl (kfoldStep P k) (acc, db) =
      (acc ++ l.map (foldError P db (kfoldIndices db.params.length k)), db) := by
  induction l generalizing acc with
  | nil => simp
  | cons x t ih => simp [kfoldStep, ih]

/-- C8: running the evaluator leaves the database unchanged, and the error
sequence accumulated by the state-passing loop equals the independent
per-fold evaluation against the original database — each fold reads only
the common database and no state carries over from one fold to the next. -/
theorem kfold_cv_run_frame (P : Pipeline) (db : Database) (k : ℕ) :
    (kfold_cv_run P db k).2 = db ∧
    (kfold_cv_run P db k).1 = kfold_cv_error P db k := by
  unfold kfold_cv_run kfold_cv_error
  rw [kfold_foldl]
  exact ⟨rfl, List.nil_append _⟩

/-- A linear congruential step, the pseudo-random generator of the model. -/
def lcg (s : ℕ) : ℕ := (s * 1103515245 + 12345) % 2147483648

/-- A deterministic Fisher-Yates-style selection shuffle driven by `lcg`;
the first argument is fuel bounding the recursion by the list length. -/
def shuffleAux : ℕ → ℕ → List ℕ → List ℕ
  | 0, _, l => l
  | fuel + 1, s, l =>
    if l.isEmpty then []
    else
      let i := s % l.length
      l.getD i 0 :: shuffleAux fuel (lcg s) (l.eraseIdx i)

/-- The seeded shuffle of a list of indices. -/
def shuffle (seed : ℕ) (l : List ℕ) : List ℕ := shuffleAux l.length seed l

/-- Modelled from the spec: the shuffled fold-assignment policy,
"contiguous or shuffled, consistently reproducible given a seed". -/
def kfoldIndicesShuffled (N k seed : ℕ) : List (List ℕ) :=
  chunkBySizes (foldSizes N k) (shuffle seed (List.range N))

/-- The evaluator run under the shuffled fold-assignment policy. -/
def kfold_cv_error_shuffled (P : Pipeline) (db : Database) (k seed : ℕ) : List ℚ :=
  (List.range k).map (foldError P db (kfoldIndicesShuffled db.params.length k seed))

/-- C9: fold partitioning is a deterministic function of the seed: two runs
given equal seeds produce identical fold assignments under the shuffled
policy (the contiguous policy does not consult the seed at all), and hence
identical error sequences for the same deterministic pipeline. -/
theorem kfold_deterministic (P : Pipeline) (db : Database) (N k s1 s2 : ℕ)
    (hseed : s1 = s2) :
    kfoldIndicesShuffled N k s1 = kfoldIndicesShuffled N k s2 ∧
    kfoldIndices N k = kfoldIndices N k ∧
    kfold_cv_error_shuffled P db k s1 = kfold_cv_error_shuffled P db k s2 ∧
    kfold_cv_error P db k = kfold_cv_error P db k := by
  subst hseed
  exact ⟨rfl, rfl, rfl, rfl⟩

theorem kfold_deterministic_witness :
    7 = 7 ∧ kfoldIndicesShuffled 5 2 7 = kfoldIndicesShuffled 5 2 7 :=
  ⟨rfl, (kfold_deterministic constPipe dbW 5 2 7 7 rfl).1⟩

end RomCv

namespace SimpleODE

/-- From `src/LESSON_5/pinns.ipynb`: the spatial domain of the `SimpleODE`
problem, `CartesianDomain x in [0, 1]`. -/
def spatial_domain : Set ℝ := Set.Icc 0 1

/-- From `src/LESSON_5/pinns.ipynb`: the declared truth solution of
`SimpleODE`, `torch.exp` of the spatial coordinate. -/
noncomputable def truth_solution (x : ℝ) : ℝ := Real.exp x

/-- From `src/LESSON_5/pinns.ipynb`: the residual computed by
`ode_equation` for a candidate solution `u`: the derivative of `u` with
respect to `x` minus `u` itself. -/
noncomputable def ode_equation (u : ℝ → ℝ) (x : ℝ) : ℝ := deriv u x - u x

/-- From `src/LESSON_5/pinns.ipynb`: the fixed boundary value of condition
`x0`, `FixedValue(1)` at `x = 0`. -/
def boundary_value : ℝ := 1

/-- C10: the declared truth solution `u(x) = exp(x)` satisfies both stated
conditions of `SimpleODE` exactly: the residual of `ode_equation` vanishes
at every point of the spatial domain `[0, 1]`, and `u(0)` equals the fixed
boundary value `1`. -/
theorem truth_solution_exact :
    (∀ x ∈ spatial_domain, ode_equation truth_solution x = 0) ∧
    truth_solution 0 = boundary_value := by
  constructor
  · intro x hx
    unfold ode_equation truth_solution
    simp [Real.deriv_exp]
  · unfold truth_solution boundary_value
    exact Real.exp_zero

theorem truth_solution_exact_witness :
    (0 : ℝ) ∈ spatial_domain ∧ ode_equation truth_solution 0 = 0 :=
  ⟨by simp [spatial_domain], truth_solution_exact.1 0 (by simp [spatial_domain])⟩

end SimpleODE
